import Mathlib

/-
Verification of the SAYCBridge rule-selection engine core
(src/z3b/preconditions.py and src/z3b/rules.py).

The Python sources are shallowly embedded below.  External collaborators
(the Call model from core.call, the History/AuctionView model, the z3
solver) are modelled at their interface boundary: a Call is an inductive
datatype, a History is a read-only record of the fields the core actually
consumes, and the solver is an oracle function from symbolic expressions
to Bool.  Python truthiness of `None`/empty collections is made explicit
with Option/List, and a Python exception (AttributeError) is modelled as
the `none` result of an Option-valued function.
-/

set_option autoImplicit false

namespace SAYC

/-- Strains, ordered clubs < diamonds < hearts < spades < notrump
(core.suit: SUITS are the four suits; notrump compares highest). -/
inductive Strain where
  | clubs
  | diamonds
  | hearts
  | spades
  | notrump
deriving DecidableEq, Repr

/-- Numeric rank used for strain comparison (notrump highest). -/
def Strain.rank : Strain → Nat
  | .clubs => 0
  | .diamonds => 1
  | .hearts => 2
  | .spades => 3
  | .notrump => 4

/-- Membership in suit.SUITS: the four suits, not notrump. -/
def Strain.isSuit : Strain → Bool
  | .notrump => false
  | _ => true

/-- A Call from core.call: Pass, Double, Redouble, or a contract bid of
level times strain.  Parsing from the canonical short name and printing the
name are mutually inverse, so the per-call constraint mapping (keyed by
short name in the source) is keyed by Call here. -/
inductive Call where
  | pass
  | double
  | redouble
  | bid (level : Nat) (strain : Strain)
deriving DecidableEq, Repr

def Call.is_pass : Call → Bool
  | .pass => true
  | _ => false

def Call.is_double : Call → Bool
  | .double => true
  | _ => false

def Call.is_redouble : Call → Bool
  | .redouble => true
  | _ => false

def Call.is_contract : Call → Bool
  | .bid _ _ => true
  | _ => false

/-- The level of a contract call (`call.level()`; only meaningful on bids). -/
def Call.level : Call → Nat
  | .bid l _ => l
  | _ => 0

/-- The strain of a call; `None` for pass/double/redouble. -/
def Call.strain : Call → Option Strain
  | .bid _ s => some s
  | _ => none

/-- Python `call.strain in suit.SUITS` (None is not in SUITS). -/
def Call.strainIsSuit (c : Call) : Bool :=
  match c.strain with
  | some s => s.isSuit
  | none => false

/-- Strain rank of a contract call, for the comparison in Jump._jump_size
(only evaluated on contract calls in the source). -/
def Call.strainRank : Call → Nat
  | .bid _ s => s.rank
  | _ => 0

/-- Tags attached to calls (the `annotations` enum of preconditions.py). -/
inductive Annot where
  | opening
  | noTrumpSystemsOn
  | artificial
  | stayman
  | gerber
  | transfer
  | jacoby2NT
  | negativeDouble
deriving DecidableEq, Repr

/-- The slice of an AuctionView a position exposes that the embedded
code consumes: the position's last call. -/
structure PositionView where
  last_call : Option Call
deriving DecidableEq, Repr

/-- The read-only slice of the History object the embedded core consumes:
per-position views, the auction-wide annotation set, the last established
contract of the call history, and the legal calls the external
CallExplorer enumerates over the current auction. -/
structure History where
  me : PositionView
  partner : PositionView
  rho : PositionView
  annots : List Annot
  last_contract : Option Call
  legal_calls : List Call
deriving DecidableEq, Repr

/-- In any history produced from a real call history, a position's last
call can only be a contract if the call history has a last contract. -/
def History.contractConsistent (h : History) : Bool :=
  h.last_contract.isSome ||
    (h.me.last_call.all (fun lc => !lc.is_contract) &&
     h.partner.last_call.all (fun lc => !lc.is_contract))

/-- A symbolic boolean expression handed to the solver oracle (z3 exprs
are opaque to the core; only conjunction is built by the engine). -/
inductive Expr where
  | atom (n : Nat)
  | tt
  | and (es : List Expr)
deriving Repr

/-- Truth value of an expression under a valuation of the atoms. -/
def Expr.eval (v : Nat → Bool) : Expr → Bool
  | .atom n => v n
  | .tt => true
  | .and es => evalList v es
where
  /-- Truth value of the conjunction of a list of expressions. -/
  evalList (v : Nat → Bool) : List Expr → Bool
  | [] => true
  | e :: es => Expr.eval v e && evalList v es

/-- NO_CONSTRAINTS.  Modelled from the spec: z3b.constraints is not under
src/; the spec says an absent constraint contributes a trivially-true
expression. -/
def NO_CONSTRAINTS : Expr := Expr.tt

/-- The dynamically-typed constraint data a rule declares: a Constraint
object (exposing expr(history, call)), a raw z3 expression, or a possibly
nested list of these.  An empty list is the Python-falsy case. -/
inductive CData where
  | constraint (f : History → Call → Expr)
  | expr (e : Expr)
  | list (cs : List CData)

/-- Python falsiness of constraint data (`not constraints`). -/
def CData.isFalsy : CData → Bool
  | .list [] => true
  | _ => false

mutual

/-- Rule._exprs_from_constraints: flattens constraint data into a list of
expressions; falsy data contributes [NO_CONSTRAINTS]. -/
def exprs_from_constraints : CData → History → Call → List Expr
  | .constraint f, h, c => [f h c]
  | .expr e, _, _ => [e]
  | .list [], _, _ => [NO_CONSTRAINTS]
  | .list (d :: ds), h, c => exprs_from_list (d :: ds) h c

/-- itertools.chain.from_iterable over the recursive calls. -/
def exprs_from_list : List CData → History → Call → List Expr
  | [], _, _ => []
  | d :: ds, h, c => exprs_from_constraints d h c ++ exprs_from_list ds h c

end

mutual

/-- Semantic reading of constraint data: all constraints it contains hold
under the valuation. -/
def CData.holds (v : Nat → Bool) : CData → History → Call → Bool
  | .constraint f, h, c => Expr.eval v (f h c)
  | .expr e, _, _ => Expr.eval v e
  | .list cs, h, c => CData.listHolds v cs h c

/-- All constraints in a list of constraint data hold. -/
def CData.listHolds (v : Nat → Bool) : List CData → History → Call → Bool
  | [], _, _ => true
  | d :: ds, h, c => CData.holds v d h c && CData.listHolds v ds h c

end

/-- An opaque priority value (an EnumValue member of one of the priority
enumerations; always truthy in Python). -/
abbrev Priority := Nat

/-- A value of the per-call constraints mapping: either plain constraint
data, or a (constraint data, priority) tuple whose last element is an
EnumValue (the two documented forms in rules.py). -/
inductive PerCall where
  | plain (cd : CData)
  | withPriority (cd : CData) (p : Priority)

/-- A Rule's declarative fields (class attributes of rules.py Rule). -/
structure Rule where
  call_name : Option Call := none
  call_names : Option (List Call) := none
  constraints : List (Call × PerCall) := []
  shared_constraints : CData := .list []
  preconditions : List (History → Call → Bool) := []
  conditional_priorities : List (Expr × Priority) := []
  priority : Option Priority := none

namespace Rule

/-- self.constraints.get(call.name): the mapping is keyed by canonical
short call name, which is in bijection with Call. -/
def perCallEntry (r : Rule) (c : Call) : Option PerCall :=
  (r.constraints.find? (fun e => e.1 == c)).map Prod.snd

/-- Rule._per_call_constraints_and_priority: the per-call constraint data
and the priority to use for this call (the tuple's override priority when
the entry is a (data, EnumValue) tuple, else the rule default). -/
def per_call_constraints_and_priority (r : Rule) (c : Call) :
    Option CData × Option Priority :=
  match r.perCallEntry c with
  | none => (none, r.priority)
  | some (.plain cd) =>
      if cd.isFalsy then (none, r.priority) else (some cd, r.priority)
  | some (.withPriority cd p) => (some cd, some p)

/-- Rule.constraints_expr_for_call: conjunction of the per-call constraint
expressions (when declared) followed by the shared constraint expressions. -/
def constraints_expr_for_call (r : Rule) (h : History) (c : Call) : Expr :=
  let exprs :=
    match (r.per_call_constraints_and_priority c).1 with
    | some cd => exprs_from_constraints cd h c
    | none => []
  Expr.and (exprs ++ exprs_from_constraints r.shared_constraints h c)

/-- Rule.priority_for_call_and_hand: the solver (with the hand context it
carries) is modelled as the oracle is_possible. -/
def priority_for_call_and_hand (r : Rule) (is_possible : Expr → Bool)
    (h : History) (c : Call) : Option Priority :=
  if !is_possible (r.constraints_expr_for_call h c) then none
  else
    match r.conditional_priorities.find? (fun cp => is_possible cp.1) with
    | some cp => some cp.2
    | none =>
        match (r.per_call_constraints_and_priority c).2 with
        | some p => some p
        | none => r.priority

/-- Rule._possible_calls_over: candidates restricted to call_name, then
call_names, then the constraint-mapping keys, else the external legal-call
enumerator (Python truthiness: an empty call_names list falls through). -/
def possible_calls_over (r : Rule) (h : History) : List Call :=
  match r.call_name with
  | some c => [c]
  | none =>
    match r.call_names with
    | some (c :: cs) => c :: cs
    | _ =>
        if r.constraints.isEmpty then h.legal_calls
        else r.constraints.map Prod.fst

/-- Rule._fits_preconditions: every declared precondition accepts. -/
def fits_preconditions (r : Rule) (h : History) (c : Call) : Bool :=
  r.preconditions.all (fun p => p h c)

/-- Rule.calls_over: candidates passing every precondition. -/
def calls_over (r : Rule) (h : History) : List Call :=
  (r.possible_calls_over h).filter (r.fits_preconditions h)

end Rule

/-! Preconditions (preconditions.py).  Each `fits` is embedded as a
function of (history, call); Python truthiness of `x and y` chains is
collapsed to Bool.  A function whose source can raise is Option-valued,
with `none` standing for the raised exception. -/

/-- NoOpening.fits: no Opening-annotated call in the auction yet. -/
def noOpening_fits (h : History) (_ : Call) : Bool :=
  !h.annots.contains .opening

/-- NoCompetition.fits: RHO's last call exists and is not a pass
(the literal source behavior; the name is a known misnomer). -/
def noCompetition_fits (h : History) (_ : Call) : Bool :=
  match h.rho.last_call with
  | none => false
  | some lc => !lc.is_pass

/-- SuitLowerThanMyLastSuit.fits: the source reads
`history.me.last_call.strain` without a None check, so when Me has made
no call yet the attribute access raises AttributeError — modelled as
`none`. -/
def suitLowerThanMyLastSuit_fits (h : History) (c : Call) : Option Bool :=
  if !c.strainIsSuit then some false
  else
    match h.me.last_call with
    | none => none
    | some lc =>
        if !lc.strainIsSuit then some false
        else some (decide (c.strainRank < lc.strainRank))

/-- RebidSameSuit.fits (note the guard on me.last_call that
SuitLowerThanMyLastSuit lacks). -/
def rebidSameSuit_fits (h : History) (c : Call) : Bool :=
  if !c.strainIsSuit then false
  else
    match h.me.last_call with
    | none => false
    | some lc => c.strain == lc.strain

/-- Jump._jump_size: one fewer level counts when the candidate strain does
not exceed the reference strain.  Levels subtract over the integers. -/
def jump_size (last_call c : Call) : Int :=
  if c.strainRank ≤ last_call.strainRank then
    (c.level : Int) - (last_call.level : Int) - 1
  else (c.level : Int) - (last_call.level : Int)

/-- Jump.fits, parameterised by the reference-call selector `_last_call`
(the subclasses pick the last contract, my last call, or partner's).
Double/Redouble candidates are rewritten to the last established contract;
when that rewrite yields no call but the reference exists and is a
contract, `_jump_size` dereferences None and raises — modelled as `none`. -/
def jumpFits (exact_size : Option Int) (last_call_of : History → Option Call)
    (h : History) (c : Call) : Option Bool :=
  if c.is_pass then some false
  else
    let c' := if c.is_double || c.is_redouble then h.last_contract else some c
    match last_call_of h with
    | none => some false
    | some lc =>
        if !lc.is_contract then some false
        else
          match c' with
          | none => none
          | some cc =>
              let sz := jump_size lc cc
              match exact_size with
              | none => some (decide (sz ≠ 0))
              | some e => some (decide (e = sz))

/-- JumpFromLastContract.fits: reference is the last established contract. -/
def jumpFromLastContract_fits (exact_size : Option Int) (h : History)
    (c : Call) : Option Bool :=
  jumpFits exact_size (fun h => h.last_contract) h c

/-- JumpFromMyLastBid.fits: reference is my last call. -/
def jumpFromMyLastBid_fits (exact_size : Option Int) (h : History)
    (c : Call) : Option Bool :=
  jumpFits exact_size (fun h => h.me.last_call) h c

/-- JumpFromPartnerLastBid.fits: reference is partner's last call. -/
def jumpFromPartnerLastBid_fits (exact_size : Option Int) (h : History)
    (c : Call) : Option Bool :=
  jumpFits exact_size (fun h => h.partner.last_call) h c

/-- NotJumpFromLastContract.fits: JumpFromLastContract with exact_size 0. -/
def notJumpFromLastContract_fits (h : History) (c : Call) : Option Bool :=
  jumpFromLastContract_fits (some 0) h c

/-- The construction-time checks of Rule.__init__ (its three asserts):
a priority or a non-empty constraints mapping; conditional priorities
exclude per-call constraints; conditional priorities require a single
fixed call_name. -/
def ruleInitOK (r : Rule) : Bool :=
  (r.priority.isSome || !r.constraints.isEmpty) &&
  (r.conditional_priorities.isEmpty || r.constraints.isEmpty) &&
  (r.conditional_priorities.isEmpty || r.call_name.isSome)

/-! Spec-side definitions, transcribed from the specification's words, to
be compared with the source-embedded functions above. -/

/-- Modelled from the spec: a rule has a resolvable priority when it has
an unconditional priority or at least one entry in constraints or
conditional_priorities that supplies one. -/
def hasResolvablePriority (r : Rule) : Bool :=
  r.priority.isSome ||
  r.constraints.any (fun e =>
    match e.2 with
    | .withPriority _ _ => true
    | .plain _ => false) ||
  !r.conditional_priorities.isEmpty

/-- Modelled from the spec: the priority of the first condition the solver
judges satisfiable, scanning conditional priorities in declared order. -/
def firstConditionalPriority (ip : Expr → Bool) :
    List (Expr × Priority) → Option Priority
  | [] => none
  | (cond, p) :: rest =>
      if ip cond then some p else firstConditionalPriority ip rest

/-- Modelled from the spec: the per-call override priority, present
exactly when the constraints mapping declared one for this call's name. -/
def declaredOverridePriority (r : Rule) (c : Call) : Option Priority :=
  match r.perCallEntry c with
  | some (.withPriority _ p) => some p
  | _ => none

/-- Modelled from the spec: priority resolution as §4.2 words it — no
priority when the full constraint expression is unsatisfiable; else the
first satisfiable conditional priority; else the per-call override when
declared; else the rule's default priority. -/
def prioritySpec (r : Rule) (ip : Expr → Bool) (h : History) (c : Call) :
    Option Priority :=
  if ip (r.constraints_expr_for_call h c) then
    match firstConditionalPriority ip r.conditional_priorities with
    | some p => some p
    | none =>
        match declaredOverridePriority r c with
        | some p => some p
        | none => r.priority
  else none

/-- Modelled from the spec: testing every legal call against the
precondition list, with no up-front call-name restriction. -/
def callsOverUnrestricted (r : Rule) (h : History) : List Call :=
  h.legal_calls.filter (r.fits_preconditions h)

/-- Modelled from the spec: the Jump-family algorithm as the claim words
it — Pass never a jump; Double/Redouble rewritten to the last contract;
no prior contract reference means no jump; jump size loses one level when
the candidate strain does not exceed the reference strain; a jump is a
nonzero size, or exactly the declared exact size. -/
def jumpClaim (ref : Option Call) (last_contract : Option Call)
    (exact_size : Option Int) (c : Call) : Bool :=
  if c.is_pass then false
  else
    match ref,
      (if c.is_double || c.is_redouble then last_contract else some c) with
    | some r, some cc =>
        if r.is_contract then
          let sz :=
            if cc.strainRank ≤ r.strainRank then
              (cc.level : Int) - (r.level : Int) - 1
            else (cc.level : Int) - (r.level : Int)
          match exact_size with
          | none => decide (sz ≠ 0)
          | some e => decide (sz = e)
        else false
    | _, _ => false

/-! Memoization model.  The @memoized decorator comes from
third_party.memoized, which is not under src/. -/

/-- Modelled from the spec: the memoization cache keyed by the full input
tuple; a lookup finds the stored result for a key. -/
def memoLookup {K V : Type} [DecidableEq K] (cache : List (K × V)) (k : K) :
    Option V :=
  (cache.find? (fun e => decide (e.1 = k))).map Prod.snd

/-- Modelled from the spec: one memoized invocation — on a cache hit the
stored result is returned and the underlying function is not invoked; on
a miss the function runs once and its result is stored.  Returns the
result, the updated cache, and how many times the underlying (solver
invoking) computation ran. -/
def memoStep {K V : Type} [DecidableEq K] (f : K → V)
    (cache : List (K × V)) (k : K) : V × List (K × V) × Nat :=
  match memoLookup cache k with
  | some v => (v, cache, 0)
  | none => (f k, (k, f k) :: cache, 1)

/-- The memoized function's full argument tuple applied to the embedded
priority computation (the solver carries the hand context). -/
def priorityOfArgs (a : Rule × (Expr → Bool) × History × Call) :
    Option Priority :=
  a.1.priority_for_call_and_hand a.2.1 a.2.2.1 a.2.2.2

/-! Concrete fixtures used by witnesses and counterexamples. -/

/-- A history at the start of an auction: nobody has called, no
annotations, no contract; 1C and 1D are among the legal calls. -/
def emptyHistory : History :=
  { me := { last_call := none }
    partner := { last_call := none }
    rho := { last_call := none }
    annots := []
    last_contract := none
    legal_calls := [.pass, .bid 1 .clubs, .bid 1 .diamonds] }

/-- A history in which partner opened one heart: the last contract is 1H. -/
def oneHeartHistory : History :=
  { me := { last_call := none }
    partner := { last_call := some (.bid 1 .hearts) }
    rho := { last_call := some .pass }
    annots := [.opening]
    last_contract := some (.bid 1 .hearts)
    legal_calls := [.pass, .double, .bid 1 .spades, .bid 2 .clubs,
      .bid 2 .diamonds, .bid 2 .hearts, .bid 3 .diamonds] }

/-- A rule shaped like OneClubOpening: a single fixed call name, a
precondition that does not inspect the candidate call, one conditional
priority, and a default priority. -/
def oneClubRule : Rule :=
  { call_name := some (.bid 1 .clubs)
    preconditions := [noOpening_fits]
    shared_constraints := .list [.expr (.atom 0), .expr (.atom 1)]
    conditional_priorities := [(.atom 2, 5)]
    priority := some 7 }

/-- A rule with no call-name restriction at all. -/
def unrestrictedRule : Rule :=
  { preconditions := [noOpening_fits]
    shared_constraints := .expr (.atom 0)
    priority := some 3 }

/-- A rule whose constraints mapping is non-empty but supplies no
priority anywhere: it passes Rule.__init__'s asserts yet has no
resolvable priority. -/
def priorityLessRule : Rule :=
  { constraints := [(.bid 1 .hearts, .plain (.expr (.atom 0)))] }

/-- A rule with conditional priorities, used to witness the init checks. -/
def conditionalRule : Rule :=
  { call_name := some (.bid 1 .hearts)
    shared_constraints := .expr (.atom 0)
    conditional_priorities := [(.atom 1, 2), (.atom 2, 3)]
    priority := some 9 }

/-- Argument tuple used to witness the memoization property. -/
def memoArgs : Nat → Rule × (Expr → Bool) × History × Call :=
  fun _ => (oneClubRule, fun _ => true, oneHeartHistory, .bid 1 .clubs)

/-! Helper lemmas. -/

/-- Scanning conditional priorities in declared order is the second
component of the first entry whose condition the oracle accepts. -/
theorem firstConditionalPriority_eq_find (ip : Expr → Bool)
    (l : List (Expr × Priority)) :
    firstConditionalPriority ip l =
      (l.find? (fun cp => ip cp.1)).map Prod.snd := by
  induction l with
  | nil => rfl
  | cons cp rest ih =>
      obtain ⟨cond, p⟩ := cp
      rw [firstConditionalPriority, List.find?]
      cases hip : ip cond
      · simpa [hip] using ih
      · simp [hip]

/-- The conjunction of an appended list of expressions. -/
theorem evalList_append (v : Nat → Bool) (a b : List Expr) :
    Expr.eval.evalList v (a ++ b) =
      (Expr.eval.evalList v a && Expr.eval.evalList v b) := by
  induction a with
  | nil => simp [Expr.eval.evalList]
  | cons e es ih => simp [Expr.eval.evalList, ih, Bool.and_assoc]

mutual

/-- Flattening constraint data preserves its conjunction semantics. -/
theorem evalList_exprs_from (v : Nat → Bool) (cd : CData) (h : History)
    (c : Call) :
    Expr.eval.evalList v (exprs_from_constraints cd h c) =
      CData.holds v cd h c := by
  match cd with
  | .constraint f =>
      simp [exprs_from_constraints, CData.holds, Expr.eval.evalList]
  | .expr e =>
      simp [exprs_from_constraints, CData.holds, Expr.eval.evalList]
  | .list [] =>
      simp [exprs_from_constraints, CData.holds, CData.listHolds,
        Expr.eval.evalList, NO_CONSTRAINTS, Expr.eval]
  | .list (d :: ds) =>
      rw [exprs_from_constraints, evalList_exprs_from_list v (d :: ds) h c]
      rfl

/-- Flattening a list of constraint data preserves conjunction semantics. -/
theorem evalList_exprs_from_list (v : Nat → Bool) (cds : List CData)
    (h : History) (c : Call) :
    Expr.eval.evalList v (exprs_from_list cds h c) =
      CData.listHolds v cds h c := by
  match cds with
  | [] => rfl
  | d :: ds =>
      rw [exprs_from_list, evalList_append, evalList_exprs_from v d h c,
        evalList_exprs_from_list v ds h c]
      rfl

end

/-! Claim theorems. -/

/-- Claim C1: Rule.priority_for_call_and_hand first checks satisfiability
of the full constraint expression and yields none when it is
unsatisfiable; otherwise it returns the priority of the first
conditional-priority condition the solver judges satisfiable, in declared
order; if none match, it returns the per-call override priority when the
constraints mapping declared one, else the rule's default priority. -/
theorem priority_for_call_and_hand_resolution (r : Rule) (ip : Expr → Bool)
    (h : History) (c : Call) :
    r.priority_for_call_and_hand ip h c = prioritySpec r ip h c := by
  unfold Rule.priority_for_call_and_hand prioritySpec
  cases hs : ip (r.constraints_expr_for_call h c)
  · simp [hs]
  · rw [firstConditionalPriority_eq_find]
    simp only [hs, Bool.not_true, Bool.false_eq_true, if_false, if_true]
    cases hf : r.conditional_priorities.find? (fun cp => ip cp.1) with
    | some cp => simp
    | none =>
        simp only [Option.map_none']
        unfold Rule.per_call_constraints_and_priority declaredOverridePriority
        cases he : r.perCallEntry c with
        | none => cases r.priority <;> simp
        | some pc =>
            cases pc with
            | plain cd =>
                cases hcd : cd.isFalsy <;> cases r.priority <;> simp [hcd]
            | withPriority cd p => simp

/-- Claim C6: NoCompetition.fits is true exactly when RHO's last call
exists and is not Pass (the literal source behavior, despite the name). -/
theorem noCompetition_fits_iff (h : History) (c : Call) :
    noCompetition_fits h c = true ↔
      ∃ lc, h.rho.last_call = some lc ∧ lc.is_pass = false := by
  unfold noCompetition_fits
  cases hr : h.rho.last_call with
  | none => simp
  | some lc => simp [Bool.not_eq_true']

/-- Claim C7: under any valuation, the expression built by
Rule.constraints_expr_for_call is the conjunction of the per-call
constraint data declared for this call (trivially true when absent) and
the rule's shared constraint data, with nested constraint lists flattened
recursively; being a pure function, it mutates nothing and is rebuilt on
every query. -/
theorem constraints_expr_for_call_conjunction (r : Rule) (h : History)
    (c : Call) (v : Nat → Bool) :
    Expr.eval v (r.constraints_expr_for_call h c) =
      ((match (r.per_call_constraints_and_priority c).1 with
        | some cd => CData.holds v cd h c
        | none => true) &&
        CData.holds v r.shared_constraints h c) := by
  unfold Rule.constraints_expr_for_call
  cases hp : (r.per_call_constraints_and_priority c).1 with
  | none =>
      simp [Expr.eval, evalList_exprs_from]
  | some cd =>
      simp [Expr.eval, evalList_append, evalList_exprs_from]

/-- Claim C2 (amended): Rule.calls_over yields exactly the candidate
calls on which every declared precondition is satisfied, where the
candidates are the rule's fixed call-name set when one is declared
(single name, explicit list, or the key set of its constraints mapping)
and all currently legal calls otherwise; when no fixed call-name set is
declared this coincides with filtering the legal calls through the
precondition list, but the up-front restriction can change which calls
the rule accepts, because the preconditions need not entail the
call-name restriction. -/
theorem calls_over_characterisation (r : Rule) (h : History) :
    (∀ c : Call, c ∈ r.calls_over h ↔
      c ∈ r.possible_calls_over h ∧ r.fits_preconditions h c = true) ∧
    (r.call_name = none → r.call_names = none → r.constraints = [] →
      r.calls_over h = callsOverUnrestricted r h) := by
  constructor
  · intro c
    simp [Rule.calls_over, List.mem_filter]
  · intro h1 h2 h3
    unfold Rule.calls_over Rule.possible_calls_over callsOverUnrestricted
    rw [h1, h2, h3]
    rfl

/-- Claim C2 witness: a rule with no fixed call-name set accepts exactly
the legal calls passing its preconditions. -/
theorem calls_over_characterisation_witness :
    unrestrictedRule.call_name = none ∧
    unrestrictedRule.calls_over emptyHistory =
      callsOverUnrestricted unrestrictedRule emptyHistory :=
  ⟨rfl, (calls_over_characterisation unrestrictedRule emptyHistory).2
    rfl rfl rfl⟩

/-- Claim C2 counterexample: for a rule shaped like OneClubOpening
(fixed call name 1C, precondition NoOpening which never inspects the
candidate call) over the empty auction, testing all legal calls against
the precondition list accepts 1D, but calls_over does not yield it — the
up-front restriction to the fixed call-name set changes which calls the
rule accepts. -/
theorem calls_over_restriction_changes_acceptance :
    Call.bid 1 .diamonds ∈ callsOverUnrestricted oneClubRule emptyHistory ∧
    Call.bid 1 .diamonds ∉ oneClubRule.calls_over emptyHistory := by
  constructor
  · decide
  · decide

/-- Claim C4 (code bug): SuitLowerThanMyLastSuit.fits dereferences
history.me.last_call.strain without a None check, so on the well-formed
pair (auction where Me has not called yet, suit candidate 1H) it raises
AttributeError instead of returning a boolean. -/
theorem suitLowerThanMyLastSuit_raises_without_my_last_call :
    suitLowerThanMyLastSuit_fits emptyHistory (.bid 1 .hearts) = none := rfl

/-- Helper: the first construction assert gives a priority or a
non-empty constraints mapping. -/
theorem initOK_priority_or_constraints (r : Rule)
    (hr : ruleInitOK r = true) :
    r.priority.isSome = true ∨ r.constraints ≠ [] := by
  unfold ruleInitOK at hr
  simp only [Bool.and_eq_true, Bool.or_eq_true] at hr
  rcases hr.1.1 with h1 | h1
  · exact Or.inl h1
  · right
    intro hc
    rw [hc] at h1
    simp at h1

/-- Helper: the second and third construction asserts force a rule with
conditional priorities to declare a single call name and no per-call
constraints. -/
theorem initOK_conditional_shape (r : Rule) (hr : ruleInitOK r = true)
    (hcp : r.conditional_priorities ≠ []) :
    r.call_name.isSome = true ∧ r.constraints = [] := by
  unfold ruleInitOK at hr
  simp only [Bool.and_eq_true, Bool.or_eq_true] at hr
  obtain ⟨⟨_, h2⟩, h3⟩ := hr
  have hcemp : r.conditional_priorities.isEmpty = false := by
    cases hl : r.conditional_priorities with
    | nil => exact absurd hl hcp
    | cons a l => simp [hl]
  rcases h3 with h3 | h3
  · rw [hcemp] at h3; cases h3
  · rcases h2 with h2 | h2
    · rw [hcemp] at h2; cases h2
    · refine ⟨h3, ?_⟩
      cases hl : r.constraints with
      | nil => rfl
      | cons a l => rw [hl] at h2; simp at h2

/-- Claim C5 (amended): Rule construction asserts that the rule declares
an unconditional priority or a non-empty constraints mapping, and that a
rule with conditional priorities declares a single fixed call name and no
per-call constraints; it does not detect a rule whose non-empty
constraints mapping supplies no priority anywhere. -/
theorem rule_init_checks (r : Rule) (hr : ruleInitOK r = true) :
    (r.priority.isSome = true ∨ r.constraints ≠ []) ∧
    (r.conditional_priorities ≠ [] →
      r.call_name.isSome = true ∧ r.constraints = []) :=
  ⟨initOK_priority_or_constraints r hr, initOK_conditional_shape r hr⟩

/-- Claim C5 witness: a well-formed rule with conditional priorities
passes the construction checks and satisfies their guarantees. -/
theorem rule_init_checks_witness :
    ruleInitOK conditionalRule = true ∧
    ((conditionalRule.priority.isSome = true ∨
        conditionalRule.constraints ≠ []) ∧
      (conditionalRule.conditional_priorities ≠ [] →
        conditionalRule.call_name.isSome = true ∧
        conditionalRule.constraints = [])) :=
  ⟨rfl, rule_init_checks conditionalRule rfl⟩

/-- Claim C5 counterexample: a rule whose constraints mapping is
non-empty but supplies no priority anywhere passes Rule.__init__'s
asserts, so the missing priority is not detected at initialization; at
query time the rule then yields no priority even though the solver finds
its constraint expression satisfiable. -/
theorem rule_init_admits_priorityless_rule :
    ruleInitOK priorityLessRule = true ∧
    hasResolvablePriority priorityLessRule = false ∧
    priorityLessRule.priority_for_call_and_hand (fun _ => true)
      emptyHistory (.bid 1 .hearts) = none :=
  ⟨rfl, rfl, rfl⟩

/-- Claim C10: every rule passing the construction checks that has
non-empty conditional priorities has an empty per-call constraints
mapping, so its per-call lookup always yields no constraint data and the
rule's default priority — the conditional-priority path and the per-call
override path are never both populated. -/
theorem conditional_priorities_exclude_per_call (r : Rule)
    (hr : ruleInitOK r = true) (hc : r.conditional_priorities ≠ []) :
    r.constraints = [] ∧
    ∀ c : Call, r.per_call_constraints_and_priority c =
      (none, r.priority) := by
  have hcs : r.constraints = [] := (initOK_conditional_shape r hr hc).2
  refine ⟨hcs, fun c => ?_⟩
  unfold Rule.per_call_constraints_and_priority Rule.perCallEntry
  rw [hcs]
  rfl

/-- Claim C10 witness: the conditional-priority rule has an empty
constraints mapping and a trivial per-call lookup. -/
theorem conditional_priorities_exclude_per_call_witness :
    ruleInitOK conditionalRule = true ∧
    conditionalRule.conditional_priorities ≠ [] ∧
    (conditionalRule.constraints = [] ∧
      ∀ c : Call, conditionalRule.per_call_constraints_and_priority c =
        (none, conditionalRule.priority)) :=
  ⟨rfl, List.cons_ne_nil _ _,
    conditional_priorities_exclude_per_call conditionalRule rfl
      (List.cons_ne_nil _ _)⟩

/-- Helper: Jump.fits agrees with the claim's description of the
algorithm whenever a Double/Redouble candidate with no last contract
cannot meet a contract reference (true of every reference drawn from the
same call history). -/
theorem jumpFits_eq_claim (ex : Option Int) (ref : History → Option Call)
    (h : History) (c : Call)
    (hcr : (c.is_double || c.is_redouble) = true → h.last_contract = none →
      ∀ lc, ref h = some lc → lc.is_contract = false) :
    jumpFits ex ref h c = some (jumpClaim (ref h) h.last_contract ex c) := by
  cases c with
  | pass => rfl
  | bid l s =>
      unfold jumpFits jumpClaim
      cases href : ref h with
      | none => rfl
      | some lc =>
          cases hlc : lc.is_contract with
          | false => simp [Call.is_pass, Call.is_double, Call.is_redouble,
              hlc]
          | true =>
              cases ex with
              | none => simp [Call.is_pass, Call.is_double,
                  Call.is_redouble, hlc, jump_size]
              | some e => simp [Call.is_pass, Call.is_double,
                  Call.is_redouble, hlc, jump_size, eq_comm]
  | double =>
      unfold jumpFits jumpClaim
      cases href : ref h with
      | none =>
          cases hctr : h.last_contract <;>
            simp [Call.is_pass, Call.is_double, Call.is_redouble, hctr]
      | some lc =>
          cases hlc : lc.is_contract with
          | false =>
              cases hctr : h.last_contract <;>
                simp [Call.is_pass, Call.is_double, Call.is_redouble,
                  hctr, hlc]
          | true =>
              cases hctr : h.last_contract with
              | none =>
                  exact absurd (hcr rfl hctr lc href)
                    (by simp [hlc])
              | some cc =>
                  cases ex with
                  | none => simp [Call.is_pass, Call.is_double,
                      Call.is_redouble, hctr, hlc, jump_size]
                  | some e => simp [Call.is_pass, Call.is_double,
                      Call.is_redouble, hctr, hlc, jump_size, eq_comm]
  | redouble =>
      unfold jumpFits jumpClaim
      cases href : ref h with
      | none =>
          cases hctr : h.last_contract <;>
            simp [Call.is_pass, Call.is_double, Call.is_redouble, hctr]
      | some lc =>
          cases hlc : lc.is_contract with
          | false =>
              cases hctr : h.last_contract <;>
                simp [Call.is_pass, Call.is_double, Call.is_redouble,
                  hctr, hlc]
          | true =>
              cases hctr : h.last_contract with
              | none =>
                  exact absurd (hcr rfl hctr lc href)
                    (by simp [hlc])
              | some cc =>
                  cases ex with
                  | none => simp [Call.is_pass, Call.is_double,
                      Call.is_redouble, hctr, hlc, jump_size]
                  | some e => simp [Call.is_pass, Call.is_double,
                      Call.is_redouble, hctr, hlc, jump_size, eq_comm]

/-- Claim C3: on histories whose per-position last calls are consistent
with the call history's last contract, each Jump-family precondition
computes exactly the claimed algorithm: Pass is never a jump; Double and
Redouble candidates are rewritten to the last established contract; a
missing or non-contract reference call gives false; the jump size is
candidate level minus reference level, less one when the candidate strain
does not exceed the reference strain; a jump is a nonzero size unless an
exact size is declared, which must then be matched exactly. -/
theorem jump_family_matches_claim (ex : Option Int) (h : History)
    (c : Call) (hwf : h.contractConsistent = true) :
    jumpFromLastContract_fits ex h c =
      some (jumpClaim h.last_contract h.last_contract ex c) ∧
    jumpFromMyLastBid_fits ex h c =
      some (jumpClaim h.me.last_call h.last_contract ex c) ∧
    jumpFromPartnerLastBid_fits ex h c =
      some (jumpClaim h.partner.last_call h.last_contract ex c) := by
  unfold History.contractConsistent at hwf
  refine ⟨?_, ?_, ?_⟩
  · refine jumpFits_eq_claim ex (fun h => h.last_contract) h c
      (fun _ hnone lc hlc => ?_)
    have hlc2 : h.last_contract = some lc := hlc
    rw [hnone] at hlc2
    cases hlc2
  · refine jumpFits_eq_claim ex (fun h => h.me.last_call) h c
      (fun _ hnone lc hlc => ?_)
    have hlc2 : h.me.last_call = some lc := hlc
    rw [hnone] at hwf
    simp only [Option.isSome_none, Bool.false_or, Bool.and_eq_true] at hwf
    have hall := hwf.1
    rw [hlc2] at hall
    simpa using hall
  · refine jumpFits_eq_claim ex (fun h => h.partner.last_call) h c
      (fun _ hnone lc hlc => ?_)
    have hlc2 : h.partner.last_call = some lc := hlc
    rw [hnone] at hwf
    simp only [Option.isSome_none, Bool.false_or, Bool.and_eq_true] at hwf
    have hall := hwf.2
    rw [hlc2] at hall
    simpa using hall

/-- Claim C3 witness: over the 1H auction, a 3D response is a jump of
exact size one from my partner's last bid, as the claim computes. -/
theorem jump_family_matches_claim_witness :
    oneHeartHistory.contractConsistent = true ∧
    (jumpFromLastContract_fits (some 1) oneHeartHistory (.bid 3 .diamonds) =
      some (jumpClaim oneHeartHistory.last_contract
        oneHeartHistory.last_contract (some 1) (.bid 3 .diamonds)) ∧
    jumpFromMyLastBid_fits (some 1) oneHeartHistory (.bid 3 .diamonds) =
      some (jumpClaim oneHeartHistory.me.last_call
        oneHeartHistory.last_contract (some 1) (.bid 3 .diamonds)) ∧
    jumpFromPartnerLastBid_fits (some 1) oneHeartHistory
        (.bid 3 .diamonds) =
      some (jumpClaim oneHeartHistory.partner.last_call
        oneHeartHistory.last_contract (some 1) (.bid 3 .diamonds))) :=
  ⟨rfl, jump_family_matches_claim (some 1) oneHeartHistory
    (.bid 3 .diamonds) rfl⟩

/-- Claim C9: whenever the call history has a last contract, a Double
candidate is rewritten to that contract and compared against it, giving
jump size minus one; hence JumpFromLastContract accepts a Double
unconditionally and NotJumpFromLastContract always rejects it. -/
theorem double_is_always_jump_from_last_contract (h : History) (lc : Call)
    (hl : h.last_contract = some lc) (hc : lc.is_contract = true) :
    jumpFromLastContract_fits none h .double = some true ∧
    notJumpFromLastContract_fits h .double = some false := by
  unfold notJumpFromLastContract_fits jumpFromLastContract_fits jumpFits
  simp only [Call.is_pass, Call.is_double, Call.is_redouble, hl, hc,
    Bool.true_or, if_true, if_false, Bool.not_true, Bool.false_eq_true]
  constructor
  · simp [jump_size]
  · simp [jump_size]

/-- Claim C9 witness: over the 1H auction a double is classified as a
jump from the last contract, and never as a non-jump. -/
theorem double_is_always_jump_witness :
    oneHeartHistory.last_contract = some (.bid 1 .hearts) ∧
    Call.is_contract (.bid 1 .hearts) = true ∧
    (jumpFromLastContract_fits none oneHeartHistory .double = some true ∧
     notJumpFromLastContract_fits oneHeartHistory .double = some false) :=
  ⟨rfl, rfl,
    double_is_always_jump_from_last_contract oneHeartHistory
      (.bid 1 .hearts) rfl rfl⟩

/-- Claim C8: a memoized priority query returns what the unmemoized
computation returns; a second query with the identical key returns the
identical cached result and does not re-run the underlying
solver-invoking computation. -/
theorem memoized_priority_query (K : Type) [DecidableEq K]
    (args : K → Rule × (Expr → Bool) × History × Call)
    (cache : List (K × Option Priority))
    (hcache : ∀ e ∈ cache, e.2 = priorityOfArgs (args e.1)) (k : K) :
    (memoStep (fun a => priorityOfArgs (args a)) cache k).1 =
      priorityOfArgs (args k) ∧
    (memoStep (fun a => priorityOfArgs (args a))
        (memoStep (fun a => priorityOfArgs (args a)) cache k).2.1 k).1 =
      (memoStep (fun a => priorityOfArgs (args a)) cache k).1 ∧
    (memoStep (fun a => priorityOfArgs (args a))
        (memoStep (fun a => priorityOfArgs (args a)) cache k).2.1 k).2.2 =
      0 := by
  cases hl : memoLookup cache k with
  | some v =>
      have hv : v = priorityOfArgs (args k) := by
        unfold memoLookup at hl
        cases hf : cache.find? (fun e => decide (e.1 = k)) with
        | none => rw [hf] at hl; cases hl
        | some e =>
            rw [hf, Option.map_some'] at hl
            have hmem := List.mem_of_find?_eq_some hf
            have hkey : e.1 = k := by simpa using List.find?_some hf
            have he2 := hcache e hmem
            rw [← Option.some.inj hl, he2, hkey]
      simp [memoStep, hl, hv]
  | none =>
      have hl2 : memoLookup
          ((k, priorityOfArgs (args k)) :: cache) k =
          some (priorityOfArgs (args k)) := by
        simp [memoLookup, List.find?]
      simp [memoStep, hl, hl2]

/-- Claim C8 witness: starting from an empty cache, the memoized query
for the 1C opening over the 1H auction computes the unmemoized value, and
the repeated query returns the identical result with zero underlying
invocations. -/
theorem memoized_priority_query_witness :
    (memoStep (fun a => priorityOfArgs (memoArgs a)) [] 0).1 =
      priorityOfArgs (memoArgs 0) ∧
    (memoStep (fun a => priorityOfArgs (memoArgs a))
        (memoStep (fun a => priorityOfArgs (memoArgs a)) [] 0).2.1 0).1 =
      (memoStep (fun a => priorityOfArgs (memoArgs a)) [] 0).1 ∧
    (memoStep (fun a => priorityOfArgs (memoArgs a))
        (memoStep (fun a => priorityOfArgs (memoArgs a)) [] 0).2.1 0).2.2 =
      0 :=
  memoized_priority_query Nat memoArgs []
    (fun e he => absurd he (List.not_mem_nil e)) 0

end SAYC
